import Mathlib

/-!
Verification of the worker-thread pool ("task manager") of the CppUtils
repository against its natural-language specification.

Two layers of embedding are used:

1. A sequential (method-level) model of `TaskManager` from `src/TaskManager.h`
   for the claims about the straight-line caller paths of `PushTask`,
   `SetThreadLocalStorage` and the construction/resize bookkeeping: each
   method becomes a Lean function on an explicit pool state.

2. Small-step transition systems over pool configurations — `Step` for
   `src/TaskManager.h` and `Step0` for the older variant in
   `src/unnamed/part_000` (the one whose `SetThreadCount` takes the `wait`
   flag the spec calls `waitForDrain`) — with one step per `m_QueueMutex`
   critical section or atomic access of the source.  Every mutation of the
   queue and its counter happens inside such a critical section (or is one
   atomic access), so the configurations between steps are exactly the
   states in which no thread holds the queue lock.  `Cancel` and the
   part_000 `SetThreadCount` are verified against these systems, with their
   internal stores and their `EmptyQueue`/`Wait` phases as individual steps,
   so that worker steps can interleave with them the way the source allows —
   in particular a worker dequeuing a task after the pause/stop store but
   before the queue clear, which the worker loop (it never checks `Paused`
   and keeps consuming while `m_QueuedTaskCount > 0`) really permits.

Tasks are identified by natural numbers (object identity of the move-only
`std::function` values); the opaque `void *` scratch values are modelled as
`Option Nat` (with `none` for the null pointer).
-/

namespace CppUtils

/-- States of the manager, from the `State` enum of `src/TaskManager.h`. -/
inductive PState
  | Running
  | Paused
  | Stopping
deriving DecidableEq, Repr

/-- Sequential model of the `TaskManager` of `src/TaskManager.h`.

* `queue` models `m_Queue` (front of the list = front of the queue);
* `queuedTaskCount` models the atomic counter `m_QueuedTaskCount`;
* `threads` models `m_Threads.size()`;
* `threadLocalStorage` models `m_ThreadLocalStorage`;
* `inFlight` is the list of tasks currently held by busy workers, each paired
  with the scratch value it was invoked with;
* `executed` is the ghost history of completed task invocations, each paired
  with the scratch value passed to the task body;
* `runningThreadCount` models the atomic counter `m_RunningThreadCount`. -/
structure TaskManager where
  state : PState
  queue : List Nat
  queuedTaskCount : Int
  threads : Nat
  threadLocalStorage : List (Option Nat)
  inFlight : List (Nat × Option Nat)
  executed : List (Nat × Option Nat)
  runningThreadCount : Int
deriving DecidableEq, Repr

namespace TaskManager

/-- Model of `TaskManager::EmptyQueue`: pop every queued task, decrementing
`m_QueuedTaskCount` once per pop, without executing anything. -/
def emptyQueue (m : TaskManager) : TaskManager :=
  { m with
    queue := []
    queuedTaskCount := m.queuedTaskCount - m.queue.length }

/-- Model of `TaskManager::Wait`: poll until `m_RunningThreadCount` drops to
zero.  Net effect with no concurrent submitters: every busy worker finishes
the task it holds and then parks on the condition variable. -/
def wait (m : TaskManager) : TaskManager :=
  { m with
    executed := m.executed ++ m.inFlight
    inFlight := []
    runningThreadCount := 0 }

/-- Model of `TaskManager::JoinThreads`: early return when there are no
threads; otherwise `Wait()` until all workers are parked, then wake them all
and join them (each woken worker re-increments `m_RunningThreadCount` before
leaving its loop, so the counter ends back at the thread count). -/
def joinThreads (m : TaskManager) : TaskManager :=
  if m.threads = 0 then m
  else { m.wait with runningThreadCount := (m.threads : Int) }

/-- Model of `TaskManager::SetThreadCount` from `src/TaskManager.h` (this
version has no `wait` flag: the queue is always discarded).  `hw` stands for
`std::thread::hardware_concurrency()`. -/
def setThreadCount (m : TaskManager) (count : Int) (hw : Nat) : TaskManager :=
  let c : Nat := if count < 0 then hw else count.toNat
  if c = m.threads then m
  else
    let m1 := { m with state := PState.Stopping }
    let m2 := m1.emptyQueue
    let m3 := m2.joinThreads
    { m3 with
      runningThreadCount := (c : Int)
      threads := c
      threadLocalStorage := List.replicate (if c = 0 then 1 else c) none
      state := PState.Running }

/-- Model of the `TaskManager` constructor: members start as
`m_State = Stopping`, empty queue and storage, zero counters, then
`SetThreadCount(threadCount)` runs. -/
def construct (threadCount : Int) (hw : Nat) : TaskManager :=
  setThreadCount
    { state := PState.Stopping
      queue := []
      queuedTaskCount := 0
      threads := 0
      threadLocalStorage := []
      inFlight := []
      executed := []
      runningThreadCount := 0 } threadCount hw

/-- Model of `TaskManager::PushTask`: no-op unless `Running`; with no threads
the task body runs synchronously with `m_ThreadLocalStorage.front()`;
otherwise the task is appended to the queue and the counter incremented. -/
def pushTask (m : TaskManager) (t : Nat) : TaskManager :=
  if m.state ≠ PState.Running then m
  else if m.threads = 0 then
    { m with executed := m.executed ++ [(t, m.threadLocalStorage.headI)] }
  else
    { m with
      queue := m.queue ++ [t]
      queuedTaskCount := m.queuedTaskCount + 1 }

/-- Model of `TaskManager::SetThreadLocalStorage`: early return (no write, no
assertion) while `Stopping`; otherwise the bounds assertion
`0 <= threadIndex < m_ThreadLocalStorage.size()` runs (`none` models an
assertion failure) and in-bounds indexes are written. -/
def setThreadLocalStorage (m : TaskManager) (threadIndex : Int)
    (data : Option Nat) : Option TaskManager :=
  if m.state = PState.Stopping then some m
  else if 0 ≤ threadIndex ∧ threadIndex < (m.threadLocalStorage.length : Int) then
    some { m with
      threadLocalStorage := m.threadLocalStorage.set threadIndex.toNat data }
  else none

/-- Model of `TaskManager::GetTaskCount`. -/
def getTaskCount (m : TaskManager) : Int :=
  m.queuedTaskCount

/-- Model of `TaskManager::GetThreadCount`. -/
def getThreadCount (m : TaskManager) : Int :=
  (m.threads : Int)

end TaskManager

/-- Status of one worker thread, at the granularity of the worker loop
lambda in `TaskManager::SetThreadCount`:

* `active`: in the loop and counted in `m_RunningThreadCount`, but not
  currently inside a task body;
* `parked`: blocked on `m_ConditionVariable`, after the decrement of
  `m_RunningThreadCount` that precedes the wait;
* `busy t`: executing the body of task `t`;
* `exitedLoop`: left the loop (loop condition became false). -/
inductive WStatus
  | active
  | parked
  | busy (t : Nat)
  | exitedLoop
deriving DecidableEq, Repr

/-- Tasks currently held by busy workers. -/
def heldTasks (ws : List WStatus) : List Nat :=
  ws.filterMap fun s =>
    match s with
    | WStatus.busy t => some t
    | _ => none

/-- Workers counted in `m_RunningThreadCount`: everyone except the parked
ones (a worker decrements the counter just before blocking on the condition
variable and re-increments it right after waking). -/
def notParked (s : WStatus) : Bool :=
  match s with
  | WStatus.parked => false
  | _ => true

/-- Configuration of the pool of `src/TaskManager.h` between critical
sections of `m_QueueMutex` (every queue or counter mutation happens inside
such a critical section or is one atomic access, so these configurations are
exactly the states in which no thread holds the queue lock).  The ghost
fields `pushed`, `popped` and `executed` record, in order, the tasks that
entered the queue, the tasks returned by a dequeue, and the task bodies that
completed. -/
structure Conf where
  state : PState
  queue : List Nat
  queuedTaskCount : Int
  workers : List WStatus
  runningThreadCount : Int
  pushed : List Nat
  popped : List Nat
  executed : List Nat
deriving DecidableEq, Repr

/-- Configuration right after `TaskManager::SetThreadCount` spawned `n`
workers: queue emptied, counter zero, `m_RunningThreadCount = n`, `n` workers
starting their loops, state `Running`. -/
def initConf (n : Nat) : Conf :=
  { state := PState.Running
    queue := []
    queuedTaskCount := 0
    workers := List.replicate n WStatus.active
    runningThreadCount := (n : Int)
    pushed := []
    popped := []
    executed := [] }

/-- One atomic action of the pool, each mirroring one critical section or
atomic access of `src/TaskManager.h`:

* `push`: the locked section of `PushTask` when threads exist (enqueue plus
  counter increment), only reachable while `Running`;
* `pushSync`: `PushTask` on a zero-worker pool: the task body runs on the
  caller's thread;
* `pop`: the locked section of the worker loop when the queue is non-empty
  (dequeue the front, decrement the counter) followed by entering the task
  body;
* `finish`: the task body returns, the worker goes back to the loop;
* `park`: the worker saw an empty queue, decrements `m_RunningThreadCount`
  and blocks on the condition variable;
* `wake`: the worker is woken (possibly spuriously), re-increments
  `m_RunningThreadCount`;
* `exitLoop`: the loop condition `m_State != Stopping || m_QueuedTaskCount > 0`
  is false, the worker leaves the loop;
* `clear`: the locked loop of `EmptyQueue` (pop all, decrementing the counter
  once per pop);
* `setState`: one of the assignments to the atomic `m_State`. -/
inductive Step : Conf → Conf → Prop
  | push (c : Conf) (t : Nat) (hs : c.state = PState.Running)
      (hw : c.workers ≠ []) :
      Step c { c with
        queue := c.queue ++ [t]
        queuedTaskCount := c.queuedTaskCount + 1
        pushed := c.pushed ++ [t] }
  | pushSync (c : Conf) (t : Nat) (hs : c.state = PState.Running)
      (hw : c.workers = []) :
      Step c { c with
        pushed := c.pushed ++ [t]
        popped := c.popped ++ [t]
        executed := c.executed ++ [t] }
  | pop (c : Conf) (i : Nat) (t : Nat) (rest : List Nat)
      (hi : c.workers.get? i = some WStatus.active)
      (hq : c.queue = t :: rest) :
      Step c { c with
        queue := rest
        queuedTaskCount := c.queuedTaskCount - 1
        workers := c.workers.set i (WStatus.busy t)
        popped := c.popped ++ [t] }
  | finish (c : Conf) (i : Nat) (t : Nat)
      (hi : c.workers.get? i = some (WStatus.busy t)) :
      Step c { c with
        workers := c.workers.set i WStatus.active
        executed := c.executed ++ [t] }
  | park (c : Conf) (i : Nat)
      (hi : c.workers.get? i = some WStatus.active)
      (hq : c.queue = []) :
      Step c { c with
        workers := c.workers.set i WStatus.parked
        runningThreadCount := c.runningThreadCount - 1 }
  | wake (c : Conf) (i : Nat)
      (hi : c.workers.get? i = some WStatus.parked) :
      Step c { c with
        workers := c.workers.set i WStatus.active
        runningThreadCount := c.runningThreadCount + 1 }
  | exitLoop (c : Conf) (i : Nat)
      (hi : c.workers.get? i = some WStatus.active)
      (hs : c.state = PState.Stopping)
      (hq : ¬ 0 < c.queuedTaskCount) :
      Step c { c with workers := c.workers.set i WStatus.exitedLoop }
  | clear (c : Conf) :
      Step c { c with
        queue := []
        queuedTaskCount := c.queuedTaskCount - c.queue.length }
  | setState (c : Conf) (s : PState) :
      Step c { c with state := s }

/-- Configurations reachable from a fresh pool of `n` workers. -/
inductive Reachable (n : Nat) : Conf → Prop
  | init : Reachable n (initConf n)
  | step {c c2 : Conf} : Reachable n c → Step c c2 → Reachable n c2

/-- Exit condition of the polling loop of `TaskManager::Wait`
(`while (m_RunningThreadCount > 0)`): `Wait` returns exactly when the guard
reads the counter at or below zero. -/
def waitReturns (c : Conf) : Prop :=
  ¬ 0 < c.runningThreadCount

/-- The steps performed by the worker threads alone (no caller operation):
exactly the `pop`, `finish`, `park`, `wake` and `exitLoop` steps of `Step`.
A span of these models what the pool can do between two consecutive actions
of a single caller running `Cancel` or `SetThreadCount`, with no concurrent
submitters. -/
inductive WorkerStep : Conf → Conf → Prop
  | pop (c : Conf) (i : Nat) (t : Nat) (rest : List Nat)
      (hi : c.workers.get? i = some WStatus.active)
      (hq : c.queue = t :: rest) :
      WorkerStep c { c with
        queue := rest
        queuedTaskCount := c.queuedTaskCount - 1
        workers := c.workers.set i (WStatus.busy t)
        popped := c.popped ++ [t] }
  | finish (c : Conf) (i : Nat) (t : Nat)
      (hi : c.workers.get? i = some (WStatus.busy t)) :
      WorkerStep c { c with
        workers := c.workers.set i WStatus.active
        executed := c.executed ++ [t] }
  | park (c : Conf) (i : Nat)
      (hi : c.workers.get? i = some WStatus.active)
      (hq : c.queue = []) :
      WorkerStep c { c with
        workers := c.workers.set i WStatus.parked
        runningThreadCount := c.runningThreadCount - 1 }
  | wake (c : Conf) (i : Nat)
      (hi : c.workers.get? i = some WStatus.parked) :
      WorkerStep c { c with
        workers := c.workers.set i WStatus.active
        runningThreadCount := c.runningThreadCount + 1 }
  | exitLoop (c : Conf) (i : Nat)
      (hi : c.workers.get? i = some WStatus.active)
      (hs : c.state = PState.Stopping)
      (hq : ¬ 0 < c.queuedTaskCount) :
      WorkerStep c { c with workers := c.workers.set i WStatus.exitedLoop }

/-- Any interleaving of pool steps. -/
def StepStar : Conf → Conf → Prop :=
  Relation.ReflTransGen Step

/-- Any interleaving of worker steps alone. -/
def WorkerStar : Conf → Conf → Prop :=
  Relation.ReflTransGen WorkerStep

/-- Worker statuses currently inside a task body. -/
def isBusy (s : WStatus) : Bool :=
  match s with
  | WStatus.busy _ => true
  | _ => false

/-- Configuration of the pool of the older `TaskManager` variant of
`src/unnamed/part_000` (the one whose `SetThreadCount` takes the `wait` flag
the spec calls `waitForDrain`), between critical sections of `m_QueueMutex`.
`stop` models the `m_Stop` atomic flag that replaces the state enum, and
`runningTaskCount` models `m_RunningTaskCount`, which in this variant counts
the task bodies currently executing.  The ghost fields are as in `Conf`. -/
structure Conf0 where
  stop : Bool
  queue : List Nat
  queuedTaskCount : Int
  workers : List WStatus
  runningTaskCount : Int
  pushed : List Nat
  popped : List Nat
  executed : List Nat
deriving DecidableEq, Repr

/-- Configuration right after part_000's `SetThreadCount` spawned `n`
workers: empty queue, zero counters (`m_RunningTaskCount` starts at 0 and is
only touched around task execution), `m_Stop == false`. -/
def initConf0 (n : Nat) : Conf0 :=
  { stop := false
    queue := []
    queuedTaskCount := 0
    workers := List.replicate n WStatus.active
    runningTaskCount := 0
    pushed := []
    popped := []
    executed := [] }

/-- One atomic action of the part_000 pool, each mirroring one critical
section or atomic access of `src/unnamed/part_000`:

* `push`: the locked section of `PushTask` when threads exist; only while
  `m_Stop == false`;
* `pushSync`: `PushTask` on a zero-thread pool: the task body runs inline on
  the caller's thread (`m_RunningTaskCount` is incremented before the call
  and decremented after, so its net effect is zero);
* `pop`: the locked section of the worker loop when the queue is non-empty —
  dequeue the front, `--m_QueuedTaskCount`, `++m_RunningTaskCount` — followed
  by entering the task body.  The loop condition
  `m_Stop == false || m_QueuedTaskCount > 0` keeps workers consuming while
  tasks are queued, whatever `m_Stop` says, so this step has no stop guard;
* `finish`: the task body returns, `--m_RunningTaskCount`;
* `park`: the worker saw an empty queue and blocks on the condition variable
  (no counter is involved in this variant);
* `wake`: the worker is woken (possibly spuriously) and re-checks the loop;
* `exitLoop`: the loop condition is false (`m_Stop` set and nothing queued);
* `clear`: the pops of `EmptyQueue` (which this variant runs without taking
  the queue lock when called from `SetThreadCount`; the interleavings that
  enables are modelled as worker steps before or after this step);
* `setStop`: one of the stores to the atomic `m_Stop`. -/
inductive Step0 : Conf0 → Conf0 → Prop
  | push (c : Conf0) (t : Nat) (hs : c.stop = false)
      (hw : c.workers ≠ []) :
      Step0 c { c with
        queue := c.queue ++ [t]
        queuedTaskCount := c.queuedTaskCount + 1
        pushed := c.pushed ++ [t] }
  | pushSync (c : Conf0) (t : Nat) (hs : c.stop = false)
      (hw : c.workers = []) :
      Step0 c { c with
        pushed := c.pushed ++ [t]
        popped := c.popped ++ [t]
        executed := c.executed ++ [t] }
  | pop (c : Conf0) (i : Nat) (t : Nat) (rest : List Nat)
      (hi : c.workers.get? i = some WStatus.active)
      (hq : c.queue = t :: rest) :
      Step0 c { c with
        queue := rest
        queuedTaskCount := c.queuedTaskCount - 1
        runningTaskCount := c.runningTaskCount + 1
        workers := c.workers.set i (WStatus.busy t)
        popped := c.popped ++ [t] }
  | finish (c : Conf0) (i : Nat) (t : Nat)
      (hi : c.workers.get? i = some (WStatus.busy t)) :
      Step0 c { c with
        workers := c.workers.set i WStatus.active
        runningTaskCount := c.runningTaskCount - 1
        executed := c.executed ++ [t] }
  | park (c : Conf0) (i : Nat)
      (hi : c.workers.get? i = some WStatus.active)
      (hq : c.queue = []) :
      Step0 c { c with workers := c.workers.set i WStatus.parked }
  | wake (c : Conf0) (i : Nat)
      (hi : c.workers.get? i = some WStatus.parked) :
      Step0 c { c with workers := c.workers.set i WStatus.active }
  | exitLoop (c : Conf0) (i : Nat)
      (hi : c.workers.get? i = some WStatus.active)
      (hs : c.stop = true)
      (hq : ¬ 0 < c.queuedTaskCount) :
      Step0 c { c with workers := c.workers.set i WStatus.exitedLoop }
  | clear (c : Conf0) :
      Step0 c { c with
        queue := []
        queuedTaskCount := c.queuedTaskCount - c.queue.length }
  | setStop (c : Conf0) (b : Bool) :
      Step0 c { c with stop := b }

/-- Configurations reachable from a fresh part_000 pool of `n` workers. -/
inductive Reachable0 (n : Nat) : Conf0 → Prop
  | init : Reachable0 n (initConf0 n)
  | step {c c2 : Conf0} : Reachable0 n c → Step0 c c2 → Reachable0 n c2

/-- Exit condition of the polling loop of part_000's `Wait`
(`while (m_RunningTaskCount > 0 || m_QueuedTaskCount > 0)`). -/
def waitReturns0 (c : Conf0) : Prop :=
  ¬ 0 < c.runningTaskCount ∧ ¬ 0 < c.queuedTaskCount

/-- The steps performed by the part_000 worker threads alone. -/
inductive WorkerStep0 : Conf0 → Conf0 → Prop
  | pop (c : Conf0) (i : Nat) (t : Nat) (rest : List Nat)
      (hi : c.workers.get? i = some WStatus.active)
      (hq : c.queue = t :: rest) :
      WorkerStep0 c { c with
        queue := rest
        queuedTaskCount := c.queuedTaskCount - 1
        runningTaskCount := c.runningTaskCount + 1
        workers := c.workers.set i (WStatus.busy t)
        popped := c.popped ++ [t] }
  | finish (c : Conf0) (i : Nat) (t : Nat)
      (hi : c.workers.get? i = some (WStatus.busy t)) :
      WorkerStep0 c { c with
        workers := c.workers.set i WStatus.active
        runningTaskCount := c.runningTaskCount - 1
        executed := c.executed ++ [t] }
  | park (c : Conf0) (i : Nat)
      (hi : c.workers.get? i = some WStatus.active)
      (hq : c.queue = []) :
      WorkerStep0 c { c with workers := c.workers.set i WStatus.parked }
  | wake (c : Conf0) (i : Nat)
      (hi : c.workers.get? i = some WStatus.parked) :
      WorkerStep0 c { c with workers := c.workers.set i WStatus.active }
  | exitLoop (c : Conf0) (i : Nat)
      (hi : c.workers.get? i = some WStatus.active)
      (hs : c.stop = true)
      (hq : ¬ 0 < c.queuedTaskCount) :
      WorkerStep0 c { c with workers := c.workers.set i WStatus.exitedLoop }

/-- Any interleaving of part_000 pool steps. -/
def StepStar0 : Conf0 → Conf0 → Prop :=
  Relation.ReflTransGen Step0

/-- Any interleaving of part_000 worker steps alone. -/
def WorkerStar0 : Conf0 → Conf0 → Prop :=
  Relation.ReflTransGen WorkerStep0

/-- Inductive invariant of the part_000 transition system; the fields read
as in `Inv`, except that `running` now says `m_RunningTaskCount` counts the
workers currently inside a task body. -/
structure Inv0 (c : Conf0) : Prop where
  counter : c.queuedTaskCount = (c.queue.length : Int)
  running : c.runningTaskCount = (c.workers.countP isBusy : Int)
  emptyNoWorkers : c.workers = [] → c.queue = []
  order : List.Sublist (c.popped ++ c.queue) c.pushed
  once : ∀ t, c.executed.count t + (heldTasks c.workers).count t = c.popped.count t

/-- A pool as built by `TaskManager(2)` (hardware concurrency 8). -/
def pool2 : TaskManager :=
  TaskManager.construct 2 8

/-- The pool of `pool2` after `SetThreadCount(0)`: the spec's `Resize(0, _)`
path to a zero-worker pool. -/
def pool0 : TaskManager :=
  pool2.setThreadCount 0 8

/-- A two-worker pool with one queued task, one in-flight task and one
completed task, used as a concrete input for the `Cancel` claim. -/
def busyPool : TaskManager :=
  { state := PState.Running
    queue := [4, 5]
    queuedTaskCount := 2
    threads := 2
    threadLocalStorage := [none, some 1]
    inFlight := [(2, some 1)]
    executed := [(1, none)]
    runningThreadCount := 2 }

/-- Number of occurrences of task `t` held by one worker status (1 exactly
when the worker is busy executing `t`). -/
def taskCnt (t : Nat) (s : WStatus) : Nat :=
  match s with
  | WStatus.busy u => if u = t then 1 else 0
  | _ => 0

/-- Inductive invariant of the transition system:

* `counter`: the queued-task counter equals the queue length (claim C7);
* `running`: `m_RunningThreadCount` equals the number of workers that are not
  parked on the condition variable (each worker decrements it right before
  blocking and re-increments it right after waking);
* `emptyNoWorkers`: a zero-worker pool never has a queued task (`PushTask`
  runs the task inline in that case);
* `order`: the dequeue history followed by the current queue is a sublist of
  the enqueue history, in order (FIFO);
* `once`: counting multiplicities, the completed executions plus the tasks
  currently inside a worker equal the dequeued tasks. -/
structure Inv (c : Conf) : Prop where
  counter : c.queuedTaskCount = (c.queue.length : Int)
  running : c.runningThreadCount = (c.workers.countP notParked : Int)
  emptyNoWorkers : c.workers = [] → c.queue = []
  order : List.Sublist (c.popped ++ c.queue) c.pushed
  once : ∀ t, c.executed.count t + (heldTasks c.workers).count t = c.popped.count t

/-- Two-worker configuration after one `Push` of task 7. -/
def confPushed : Conf :=
  { state := PState.Running
    queue := [7]
    queuedTaskCount := 1
    workers := [WStatus.active, WStatus.active]
    runningThreadCount := 2
    pushed := [7]
    popped := []
    executed := [] }

/-- One-worker configuration after the worker parked on the condition
variable (so the guard of `Wait` lets it return). -/
def confParked : Conf :=
  { state := PState.Running
    queue := []
    queuedTaskCount := 0
    workers := [WStatus.parked]
    runningThreadCount := 0
    pushed := []
    popped := []
    executed := [] }

/-- One-worker configuration after task 5 was pushed, dequeued and executed. -/
def confDone : Conf :=
  { state := PState.Running
    queue := []
    queuedTaskCount := 0
    workers := [WStatus.active]
    runningThreadCount := 1
    pushed := [5]
    popped := [5]
    executed := [5] }

/-- Two-worker configuration after tasks 1 and 2 were pushed in this order
and each dequeued by one of the workers. -/
def confTwo : Conf :=
  { state := PState.Running
    queue := []
    queuedTaskCount := 0
    workers := [WStatus.busy 1, WStatus.busy 2]
    runningThreadCount := 2
    pushed := [1, 2]
    popped := [1, 2]
    executed := [] }

/-- One-worker pool with tasks 7 and 8 queued and nothing started, at the
moment a `Cancel()` call begins. -/
def cxQ2 : Conf :=
  { state := PState.Running
    queue := [7, 8]
    queuedTaskCount := 2
    workers := [WStatus.active]
    runningThreadCount := 1
    pushed := [7, 8]
    popped := []
    executed := [] }

/-- `cxQ2` after `Cancel` stored `m_State = Paused`. -/
def cxPaused : Conf :=
  { cxQ2 with state := PState.Paused }

/-- `cxPaused` after the worker dequeued task 7 (its loop never checks
`Paused`). -/
def cxPopped : Conf :=
  { cxPaused with
    queue := [8]
    queuedTaskCount := 1
    workers := [WStatus.busy 7]
    popped := [7] }

/-- `cxPopped` after `Cancel`'s `EmptyQueue` discarded task 8. -/
def cxCleared : Conf :=
  { cxPopped with queue := [], queuedTaskCount := 0 }

/-- `cxCleared` after the worker finished executing task 7. -/
def cxDone : Conf :=
  { cxCleared with workers := [WStatus.active], executed := [7] }

/-- `cxDone` after the worker parked, letting `Cancel`'s `Wait` return. -/
def cxParked : Conf :=
  { cxDone with workers := [WStatus.parked], runningThreadCount := 0 }

/-- `cxParked` after `Cancel` stored `m_State = Running` and returned. -/
def cxRet : Conf :=
  { cxParked with state := PState.Running }

/-- One-worker pool with task 7 queued and nothing started, at the moment a
`Cancel()` call begins (input of the amended `Cancel` claim's witness). -/
def confW0 : Conf :=
  { state := PState.Running
    queue := [7]
    queuedTaskCount := 1
    workers := [WStatus.active]
    runningThreadCount := 1
    pushed := [7]
    popped := []
    executed := [] }

/-- `confW0` after the `Paused` store, with the worker not having run. -/
def confW1 : Conf :=
  { confW0 with state := PState.Paused }

/-- `confW1` after `EmptyQueue` discarded task 7. -/
def confW2 : Conf :=
  { confW1 with queue := [], queuedTaskCount := 0 }

/-- `confW2` after the worker parked, letting `Wait` return. -/
def confW3 : Conf :=
  { confW2 with workers := [WStatus.parked], runningThreadCount := 0 }

/-- `confW3` after the final `Running` store. -/
def confW4 : Conf :=
  { confW3 with state := PState.Running }

/-- One-worker part_000 pool with tasks 7 and 8 queued and nothing started,
at the moment a `SetThreadCount(2, false)` call begins. -/
def dxQ : Conf0 :=
  { stop := false
    queue := [7, 8]
    queuedTaskCount := 2
    workers := [WStatus.active]
    runningTaskCount := 0
    pushed := [7, 8]
    popped := []
    executed := [] }

/-- `dxQ` after the call stored `m_Stop = true`. -/
def dxStop : Conf0 :=
  { dxQ with stop := true }

/-- `dxStop` after the worker dequeued task 7 (its loop keeps consuming
while `m_QueuedTaskCount > 0`). -/
def dxPop : Conf0 :=
  { dxStop with
    queue := [8]
    queuedTaskCount := 1
    workers := [WStatus.busy 7]
    runningTaskCount := 1
    popped := [7] }

/-- `dxPop` after the lockless `EmptyQueue` discarded task 8. -/
def dxClear : Conf0 :=
  { dxPop with queue := [], queuedTaskCount := 0 }

/-- `dxClear` after the worker finished executing task 7; `Wait()` returns
here (no running and no queued task). -/
def dxFin : Conf0 :=
  { dxClear with
    workers := [WStatus.active]
    runningTaskCount := 0
    executed := [7] }

/-- `dxFin` after the old worker saw the loop condition false and exited. -/
def dxExit : Conf0 :=
  { dxFin with workers := [WStatus.exitedLoop] }

/-- `dxExit` after `JoinThreads` joined the old worker and the call spawned
the 2 new workers and dropped `m_Stop`. -/
def dxSpawn : Conf0 :=
  { dxExit with workers := [WStatus.active, WStatus.active], stop := false }

/-- One-worker part_000 pool with task 7 queued and nothing started (input
of the amended resize claim's witness). -/
def confV0 : Conf0 :=
  { stop := false
    queue := [7]
    queuedTaskCount := 1
    workers := [WStatus.active]
    runningTaskCount := 0
    pushed := [7]
    popped := []
    executed := [] }

/-- `confV0` after the `m_Stop = true` store. -/
def confV1 : Conf0 :=
  { confV0 with stop := true }

/-- `confV1` after the worker dequeued task 7. -/
def confV2 : Conf0 :=
  { confV1 with
    queue := []
    queuedTaskCount := 0
    workers := [WStatus.busy 7]
    runningTaskCount := 1
    popped := [7] }

/-- `confV2` after the worker finished executing task 7; on the
`waitForDrain = true` path, `Wait()` returns here. -/
def confV3 : Conf0 :=
  { confV2 with
    workers := [WStatus.active]
    runningTaskCount := 0
    executed := [7] }

/-- `confV1` after `EmptyQueue` discarded task 7 (the `waitForDrain = false`
path with the worker not having run); `Wait()` returns here. -/
def confV4 : Conf0 :=
  { confV1 with queue := [], queuedTaskCount := 0 }

/-- `confV4` after the join of the old worker and the spawn of 2 new
workers. -/
def confV5 : Conf0 :=
  { confV4 with workers := [WStatus.active, WStatus.active], stop := false }

/-- Claim C8: a `Submit` call made while the pool state is not `Running` is a
silent no-op: the pool, its queue, its counter and its state are unchanged
and the task body never runs. -/
theorem claim_C8_submit_not_running (m : TaskManager) (t : Nat)
    (h : m.state ≠ PState.Running) :
    m.pushTask t = m := by
  simp [TaskManager.pushTask, h]

/-- Witness for claim C8 at a concrete `Paused` pool. -/
theorem claim_C8_witness :
    ({ busyPool with state := PState.Paused } : TaskManager).state ≠
        PState.Running ∧
    ({ busyPool with state := PState.Paused } : TaskManager).pushTask 7 =
      { busyPool with state := PState.Paused } :=
  ⟨by decide, claim_C8_submit_not_running _ 7 (by decide)⟩

/-- Claim C10: while the pool state is `Stopping`, `SetThreadLocalStorage`
returns immediately without writing any slot and without reaching the bounds
assertion, whatever the index. -/
theorem claim_C10_setTLS_stopping (m : TaskManager) (threadIndex : Int)
    (data : Option Nat) (h : m.state = PState.Stopping) :
    m.setThreadLocalStorage threadIndex data = some m := by
  simp [TaskManager.setThreadLocalStorage, h]

/-- Witness for claim C10: a freshly constructed `TaskManager(0)` is in the
`Stopping` state, and even the out-of-range index `-3` neither fails the
assertion nor changes the pool. -/
theorem claim_C10_witness :
    (TaskManager.construct 0 8).state = PState.Stopping ∧
    (TaskManager.construct 0 8).setThreadLocalStorage (-3) (some 5) =
      some (TaskManager.construct 0 8) :=
  ⟨by decide, claim_C10_setTLS_stopping _ (-3) (some 5) (by decide)⟩

/-- Claim C2, evaluated at the failing input: constructing `TaskManager(0)`
takes the early return of `SetThreadCount` (0 equals the current thread
count), so the pool keeps the `Stopping` state of the initializer list, and
`PushTask` silently drops every task instead of executing it synchronously —
contradicting `SetThreadCount`'s own documentation ("0 will execute tasks
instantly").  The last conjunct shows the intended behaviour does hold on the
other zero-worker path, a pool resized to 0, where the task body runs
synchronously with the contents of scratch slot 0. -/
theorem claim_C2_constructed_zero_drops_tasks :
    (TaskManager.construct 0 8).state = PState.Stopping ∧
    (TaskManager.construct 0 8).pushTask 42 = TaskManager.construct 0 8 ∧
    ((TaskManager.construct 0 8).pushTask 42).executed = [] ∧
    pool0.threads = 0 ∧ pool0.state = PState.Running ∧
    (pool0.pushTask 42).executed = [(42, none)] := by
  decide

/-- Claim C9 counterexample: `pool0` has zero workers and is `Running`, so
index 0 lies outside the claim's range `[0, workerCount) = [0, 0)`, yet the
call does not fail the bounds assertion: the assertion checks against the
scratch-table size `max(workerCount, 1) = 1`, and the value is stored into
slot 0. -/
theorem claim_C9_counterexample :
    pool0.threads = 0 ∧ pool0.state = PState.Running ∧
    pool0.setThreadLocalStorage 0 (some 7) ≠ none := by
  decide

/-- Claim C9 as amended: when the pool is not `Stopping` (otherwise the call
returns before the assertion, see claim C10) and the scratch table has its
invariant size `max(workerCount, 1)`, an index outside
`[0, max(workerCount, 1))` fails the bounds assertion, and an index inside
that range stores the value into that slot. -/
theorem claim_C9_amended (m : TaskManager) (threadIndex : Int)
    (data : Option Nat) (hs : m.state ≠ PState.Stopping)
    (hlen : m.threadLocalStorage.length = max m.threads 1) :
    (¬ (0 ≤ threadIndex ∧ threadIndex < ((max m.threads 1 : Nat) : Int)) →
      m.setThreadLocalStorage threadIndex data = none) ∧
    ((0 ≤ threadIndex ∧ threadIndex < ((max m.threads 1 : Nat) : Int)) →
      m.setThreadLocalStorage threadIndex data =
        some { m with
          threadLocalStorage :=
            m.threadLocalStorage.set threadIndex.toNat data }) := by
  have hcast : (m.threadLocalStorage.length : Int) = ((max m.threads 1 : Nat) : Int) := by
    rw [hlen]
  have hiff : (0 ≤ threadIndex ∧ threadIndex < (m.threadLocalStorage.length : Int)) ↔
      (0 ≤ threadIndex ∧ threadIndex < ((max m.threads 1 : Nat) : Int)) := by
    rw [hcast]
  constructor
  · intro hout
    simp only [TaskManager.setThreadLocalStorage]
    rw [if_neg hs, if_neg (fun h => hout (hiff.1 h))]
  · intro hin
    simp only [TaskManager.setThreadLocalStorage]
    rw [if_neg hs, if_pos (hiff.2 hin)]

/-- Witness for the amended claim C9, at the zero-worker pool `pool0` and the
out-of-range index 5. -/
theorem claim_C9_witness :
    pool0.state ≠ PState.Stopping ∧
    pool0.threadLocalStorage.length = max pool0.threads 1 ∧
    ((¬ (0 ≤ (5 : Int) ∧ (5 : Int) < ((max pool0.threads 1 : Nat) : Int))) →
      pool0.setThreadLocalStorage 5 (some 7) = none) ∧
    (((0 ≤ (5 : Int) ∧ (5 : Int) < ((max pool0.threads 1 : Nat) : Int))) →
      pool0.setThreadLocalStorage 5 (some 7) =
        some { pool0 with
          threadLocalStorage := pool0.threadLocalStorage.set (5 : Int).toNat (some 7) }) :=
  ⟨by decide, by decide,
    (claim_C9_amended pool0 5 (some 7) (by decide) (by decide)).1,
    (claim_C9_amended pool0 5 (some 7) (by decide) (by decide)).2⟩

/-- Setting worker `i` changes `countP` by the difference of the old and new
statuses. -/
theorem countP_set_add (p : WStatus → Bool) (ws : List WStatus) (i : Nat)
    (s s2 : WStatus) (h : ws.get? i = some s) :
    (ws.set i s2).countP p + (if p s then 1 else 0) =
      ws.countP p + (if p s2 then 1 else 0) := by
  induction ws generalizing i with
  | nil => simp at h
  | cons x tl ih =>
    cases i with
    | zero =>
      have hx : x = s := by simpa using h
      show (s2 :: tl).countP p + (if p s then 1 else 0) =
        (x :: tl).countP p + (if p s2 then 1 else 0)
      rw [List.countP_cons, List.countP_cons, hx]
      omega
    | succ j =>
      have h2 : tl.get? j = some s := by simpa using h
      show (x :: tl.set j s2).countP p + (if p s then 1 else 0) =
        (x :: tl).countP p + (if p s2 then 1 else 0)
      rw [List.countP_cons, List.countP_cons]
      have := ih j h2
      omega

/-- Counting one task among the held tasks of one worker status. -/
theorem heldTasks_cons (x : WStatus) (tl : List WStatus) (t : Nat) :
    (heldTasks (x :: tl)).count t = taskCnt t x + (heldTasks tl).count t := by
  cases x with
  | busy u =>
    show (u :: heldTasks tl).count t = taskCnt t (WStatus.busy u) + (heldTasks tl).count t
    rw [List.count_cons]
    simp [taskCnt]
    omega
  | active => simp [heldTasks, taskCnt, List.filterMap_cons]
  | parked => simp [heldTasks, taskCnt, List.filterMap_cons]
  | exitedLoop => simp [heldTasks, taskCnt, List.filterMap_cons]

/-- Setting worker `i` changes the held-task count by the difference of the
old and new statuses. -/
theorem heldTasks_set_count (ws : List WStatus) (i : Nat) (s s2 : WStatus)
    (t : Nat) (h : ws.get? i = some s) :
    (heldTasks (ws.set i s2)).count t + taskCnt t s =
      (heldTasks ws).count t + taskCnt t s2 := by
  induction ws generalizing i with
  | nil => simp at h
  | cons x tl ih =>
    cases i with
    | zero =>
      have hx : x = s := by simpa using h
      show (heldTasks (s2 :: tl)).count t + taskCnt t s =
        (heldTasks (x :: tl)).count t + taskCnt t s2
      rw [heldTasks_cons, heldTasks_cons, hx]
      omega
    | succ j =>
      have h2 : tl.get? j = some s := by simpa using h
      show (heldTasks (x :: tl.set j s2)).count t + taskCnt t s =
        (heldTasks (x :: tl)).count t + taskCnt t s2
      rw [heldTasks_cons, heldTasks_cons]
      have := ih j h2
      omega

/-- All freshly spawned workers are counted in `m_RunningThreadCount`. -/
theorem countP_replicate_active (n : Nat) :
    (List.replicate n WStatus.active).countP notParked = n := by
  induction n with
  | zero => rfl
  | succ k ih => simp [List.replicate_succ, List.countP_cons, ih, notParked]

/-- Freshly spawned workers hold no task. -/
theorem heldTasks_replicate_active (n : Nat) :
    heldTasks (List.replicate n WStatus.active) = [] := by
  induction n with
  | zero => rfl
  | succ k ih =>
    rw [List.replicate_succ]
    show heldTasks (WStatus.active :: List.replicate k WStatus.active) = []
    simp [heldTasks, List.filterMap_cons] at ih ⊢

/-- Updating a worker status never empties a non-empty worker list. -/
theorem set_ne_nil_of_get (ws : List WStatus) (i : Nat) (s s2 : WStatus)
    (h : ws.get? i = some s) : ws.set i s2 ≠ [] := by
  cases ws with
  | nil => simp at h
  | cons x tl => cases i <;> simp

/-- The invariant holds in the initial configuration. -/
theorem inv_init (n : Nat) : Inv (initConf n) := by
  refine ⟨?_, ?_, ?_, ?_, ?_⟩ <;>
    simp [initConf, countP_replicate_active, heldTasks_replicate_active]

/-- Every step of the pool preserves the invariant. -/
theorem inv_step {c c2 : Conf} (hv : Inv c) (hs : Step c c2) : Inv c2 := by
  obtain ⟨hcnt, hrun, hwq, hord, honce⟩ := hv
  cases hs with
  | push t hst hw =>
    refine ⟨?_, hrun, ?_, ?_, honce⟩
    · simp [hcnt]
    · intro h; exact absurd h hw
    · rw [← List.append_assoc]
      exact hord.append (List.Sublist.refl [t])
  | pushSync t hst hw =>
    have hq : c.queue = [] := hwq hw
    refine ⟨hcnt, hrun, fun _ => hq, ?_, ?_⟩
    · have hord2 : List.Sublist c.popped c.pushed := by
        simpa [hq] using hord
      simp only [hq, List.append_nil]
      exact hord2.append (List.Sublist.refl [t])
    · intro u
      have ho := honce u
      by_cases he : u = t
      · subst he
        simp [List.count_append, List.count_singleton]
        omega
      · simp [List.count_append, List.count_singleton, Ne.symm he]
        omega
  | pop i t rest hi hq =>
    refine ⟨?_, ?_, ?_, ?_, ?_⟩
    · have : c.queuedTaskCount = (rest.length : Int) + 1 := by
        rw [hcnt, hq]; push_cast [List.length_cons]; ring
      simp [this]
    · have hcp := countP_set_add notParked c.workers i WStatus.active
        (WStatus.busy t) hi
      simp [notParked] at hcp
      rw [hrun, hcp]
    · intro h
      exact absurd h (set_ne_nil_of_get c.workers i WStatus.active
        (WStatus.busy t) hi)
    · have : c.popped ++ [t] ++ rest = c.popped ++ (t :: rest) := by
        simp
      rw [this, ← hq]
      exact hord
    · intro u
      have hh := heldTasks_set_count c.workers i WStatus.active
        (WStatus.busy t) u hi
      have ho := honce u
      by_cases he : u = t
      · subst he
        simp [taskCnt, List.count_append, List.count_singleton] at hh ⊢
        omega
      · simp [taskCnt, Ne.symm he, List.count_append, List.count_singleton] at hh ⊢
        omega
  | finish i t hi =>
    refine ⟨hcnt, ?_, ?_, hord, ?_⟩
    · have hcp := countP_set_add notParked c.workers i (WStatus.busy t)
        WStatus.active hi
      simp [notParked] at hcp
      rw [hrun, hcp]
    · intro h
      exact absurd h (set_ne_nil_of_get c.workers i (WStatus.busy t)
        WStatus.active hi)
    · intro u
      have hh := heldTasks_set_count c.workers i (WStatus.busy t)
        WStatus.active u hi
      have ho := honce u
      by_cases he : u = t
      · subst he
        simp [taskCnt, List.count_append, List.count_singleton] at hh ⊢
        omega
      · simp [taskCnt, Ne.symm he, List.count_append, List.count_singleton] at hh ⊢
        omega
  | park i hi hq =>
    refine ⟨hcnt, ?_, fun _ => hq, hord, ?_⟩
    · have hcp := countP_set_add notParked c.workers i WStatus.active
        WStatus.parked hi
      simp [notParked] at hcp
      show c.runningThreadCount - 1 =
        (List.countP notParked (c.workers.set i WStatus.parked) : Int)
      rw [hrun]
      omega
    · intro u
      have hh := heldTasks_set_count c.workers i WStatus.active
        WStatus.parked u hi
      have ho := honce u
      simp [taskCnt] at hh
      rw [hh]
      exact ho
  | wake i hi =>
    refine ⟨hcnt, ?_, ?_, hord, ?_⟩
    · have hcp := countP_set_add notParked c.workers i WStatus.parked
        WStatus.active hi
      simp [notParked] at hcp
      show c.runningThreadCount + 1 =
        (List.countP notParked (c.workers.set i WStatus.active) : Int)
      rw [hrun]
      omega
    · intro h
      exact absurd h (set_ne_nil_of_get c.workers i WStatus.parked
        WStatus.active hi)
    · intro u
      have hh := heldTasks_set_count c.workers i WStatus.parked
        WStatus.active u hi
      have ho := honce u
      simp [taskCnt] at hh
      rw [hh]
      exact ho
  | exitLoop i hi hst hq =>
    refine ⟨hcnt, ?_, ?_, hord, ?_⟩
    · have hcp := countP_set_add notParked c.workers i WStatus.active
        WStatus.exitedLoop hi
      simp [notParked] at hcp
      rw [hrun, hcp]
    · intro h
      exact absurd h (set_ne_nil_of_get c.workers i WStatus.active
        WStatus.exitedLoop hi)
    · intro u
      have hh := heldTasks_set_count c.workers i WStatus.active
        WStatus.exitedLoop u hi
      have ho := honce u
      simp [taskCnt] at hh
      rw [hh]
      exact ho
  | clear =>
    refine ⟨?_, hrun, fun _ => rfl, ?_, honce⟩
    · simp [hcnt]
    · simp only [List.append_nil]
      exact (List.sublist_append_left c.popped c.queue).trans hord
  | setState s =>
    exact ⟨hcnt, hrun, hwq, hord, honce⟩

/-- The invariant holds in every reachable configuration. -/
theorem inv_of_reachable {n : Nat} {c : Conf} (h : Reachable n c) : Inv c := by
  induction h with
  | init => exact inv_init n
  | step h1 h2 ih => exact inv_step ih h2

/-- A sublist of a duplicate-free list preserves the relative order of its
elements, expressed through `indexOf`. -/
theorem sublist_indexOf_mono {l1 l2 : List Nat} (h : List.Sublist l1 l2) :
    l2.Nodup → ∀ a b : Nat, a ∈ l1 → b ∈ l1 →
      l2.indexOf a < l2.indexOf b → l1.indexOf a < l1.indexOf b := by
  induction h with
  | slnil =>
    intro _ a b ha _ _
    simp at ha
  | cons x hsub ih =>
    intro hnd a b ha hb hab
    have hx := (List.nodup_cons.1 hnd).1
    have hnd2 := (List.nodup_cons.1 hnd).2
    have hax : x ≠ a := fun he => hx (he ▸ hsub.subset ha)
    have hbx : x ≠ b := fun he => hx (he ▸ hsub.subset hb)
    rw [List.indexOf_cons_ne _ hax, List.indexOf_cons_ne _ hbx] at hab
    exact ih hnd2 a b ha hb (Nat.lt_of_succ_lt_succ hab)
  | cons₂ x hsub ih =>
    intro hnd a b ha hb hab
    have hx := (List.nodup_cons.1 hnd).1
    have hnd2 := (List.nodup_cons.1 hnd).2
    by_cases hax : a = x
    · subst hax
      have hba : b ≠ a := by
        intro he
        subst he
        exact Nat.lt_irrefl _ hab
      rw [List.indexOf_cons_self]
      rw [List.indexOf_cons_ne _ (Ne.symm hba)]
      exact Nat.succ_pos _
    · by_cases hbx : b = x
      · subst hbx
        rw [List.indexOf_cons_self] at hab
        exact absurd hab (Nat.not_lt_zero _)
      · have ha2 := List.mem_of_ne_of_mem hax ha
        have hb2 := List.mem_of_ne_of_mem hbx hb
        rw [List.indexOf_cons_ne _ (Ne.symm hax),
          List.indexOf_cons_ne _ (Ne.symm hbx)] at hab
        rw [List.indexOf_cons_ne _ (Ne.symm hax),
          List.indexOf_cons_ne _ (Ne.symm hbx)]
        exact Nat.succ_lt_succ (ih hnd2 a b ha2 hb2 (Nat.lt_of_succ_lt_succ hab))

/-- Claim C7: in every reachable configuration — and the configurations of
the transition system are exactly the states in which no thread holds the
queue lock, since each step is one whole critical section — the queued-task
counter `m_QueuedTaskCount` equals the number of tasks in the queue; in
particular every push, worker dequeue and clear preserves the equality. -/
theorem claim_C7_counter_matches_queue {n : Nat} {c : Conf}
    (h : Reachable n c) : c.queuedTaskCount = (c.queue.length : Int) :=
  (inv_of_reachable h).counter

/-- Witness for claim C7: the configuration reached by pushing task 7 into a
fresh two-worker pool. -/
theorem claim_C7_witness :
    confPushed.queuedTaskCount = (confPushed.queue.length : Int) :=
  claim_C7_counter_matches_queue
    (Reachable.step Reachable.init (Step.push (initConf 2) 7 rfl (by decide)))

/-- Claim C3: `Wait()` returns only when no worker is executing a task body:
whenever the guard of its polling loop lets it return (the atomic counter
`m_RunningThreadCount` reads at most zero), no worker of the reachable
configuration is busy. -/
theorem claim_C3_wait_only_when_idle {n : Nat} {c : Conf}
    (h : Reachable n c) (hw : waitReturns c) :
    ∀ i t, c.workers.get? i ≠ some (WStatus.busy t) := by
  have hrun := (inv_of_reachable h).running
  intro i t hbusy
  have hmem : WStatus.busy t ∈ c.workers := List.get?_mem hbusy
  have hpos : 0 < c.workers.countP notParked :=
    List.countP_pos_iff.2 ⟨WStatus.busy t, hmem, rfl⟩
  have : (0 : Int) < c.runningThreadCount := by
    rw [hrun]
    exact_mod_cast hpos
  exact hw this

/-- Witness for claim C3: the configuration in which the single worker has
parked; the `Wait` guard lets it return and indeed no worker is busy. -/
theorem claim_C3_witness :
    waitReturns confParked ∧
    ∀ i t, confParked.workers.get? i ≠ some (WStatus.busy t) :=
  ⟨by simp [waitReturns, confParked],
    claim_C3_wait_only_when_idle
      (Reachable.step Reachable.init (Step.park (initConf 1) 0 rfl rfl))
      (by simp [waitReturns, confParked])⟩

/-- Claim C5: a task accepted into the queue (task ids are distinct, since
`Task` objects are move-only) is, once dequeued by a worker, dequeued only
that once, executed at most once at any point of any execution (hence never
re-executed), and never present in the queue again (never re-enqueued). -/
theorem claim_C5_exactly_once {n : Nat} {c : Conf} (h : Reachable n c)
    (hnd : c.pushed.Nodup) :
    ∀ t ∈ c.popped,
      c.popped.count t = 1 ∧ c.executed.count t ≤ 1 ∧ t ∉ c.queue := by
  obtain ⟨-, -, -, hord, honce⟩ := inv_of_reachable h
  intro t ht
  have hndpq : (c.popped ++ c.queue).Nodup := hord.nodup hnd
  have hle : (c.popped ++ c.queue).count t ≤ 1 :=
    List.nodup_iff_count_le_one.1 hndpq t
  rw [List.count_append] at hle
  have hpos : 0 < c.popped.count t := List.count_pos_iff.2 ht
  have hp1 : c.popped.count t = 1 := by omega
  have hq0 : c.queue.count t = 0 := by omega
  refine ⟨hp1, ?_, ?_⟩
  · have := honce t
    omega
  · exact List.count_eq_zero.1 hq0

/-- Witness for claim C5: one worker pushed, dequeued and executed task 5. -/
theorem claim_C5_witness :
    confDone.pushed.Nodup ∧ 5 ∈ confDone.popped ∧
    (confDone.popped.count 5 = 1 ∧ confDone.executed.count 5 ≤ 1 ∧
      5 ∉ confDone.queue) := by
  have hreach : Reachable 1 confDone :=
    Reachable.step
      (Reachable.step
        (Reachable.step Reachable.init
          (Step.push (initConf 1) 5 rfl (by decide)))
        (Step.pop _ 0 5 [] rfl rfl))
      (Step.finish _ 0 5 rfl)
  exact ⟨by decide, by decide,
    claim_C5_exactly_once hreach (by decide) 5 (by decide)⟩

/-- Claim C6: two `Push` operations whose critical sections do not overlap
are two `push` steps of the transition system, so their tasks appear in the
`pushed` history in that order; the tasks dequeued by `Pop` operations
(the `popped` history) then show the two tasks in the same relative order.
Relative order is expressed through `indexOf`, which is unambiguous because
distinct move-only task objects have distinct ids. -/
theorem claim_C6_fifo {n : Nat} {c : Conf} (h : Reachable n c)
    (hnd : c.pushed.Nodup) {a b : Nat}
    (ha : a ∈ c.popped) (hb : b ∈ c.popped)
    (hab : c.pushed.indexOf a < c.pushed.indexOf b) :
    c.popped.indexOf a < c.popped.indexOf b := by
  have hord := (inv_of_reachable h).order
  have hsub : List.Sublist c.popped c.pushed :=
    (List.sublist_append_left c.popped c.queue).trans hord
  exact sublist_indexOf_mono hsub hnd a b ha hb hab

/-- Witness for claim C6: tasks 1 then 2 pushed into a two-worker pool and
dequeued one by each worker, in FIFO order. -/
theorem claim_C6_witness :
    confTwo.pushed.Nodup ∧ 1 ∈ confTwo.popped ∧ 2 ∈ confTwo.popped ∧
    confTwo.pushed.indexOf 1 < confTwo.pushed.indexOf 2 ∧
    confTwo.popped.indexOf 1 < confTwo.popped.indexOf 2 := by
  have hreach : Reachable 2 confTwo :=
    Reachable.step
      (Reachable.step
        (Reachable.step
          (Reachable.step Reachable.init
            (Step.push (initConf 2) 1 rfl (by decide)))
          (Step.push _ 2 rfl (by decide)))
        (Step.pop _ 0 1 [2] rfl rfl))
      (Step.pop _ 1 2 [] rfl rfl)
  exact ⟨by decide, by decide, by decide, by decide,
    claim_C6_fifo hreach (by decide) (by decide) (by decide) (by decide)⟩

/-- Every worker step is a pool step. -/
theorem workerStep_toStep {c c2 : Conf} (h : WorkerStep c c2) : Step c c2 := by
  cases h with
  | pop i t rest hi hq => exact Step.pop c i t rest hi hq
  | finish i t hi => exact Step.finish c i t hi
  | park i hi hq => exact Step.park c i hi hq
  | wake i hi => exact Step.wake c i hi
  | exitLoop i hi hs hq => exact Step.exitLoop c i hi hs hq

/-- A span of worker steps is a span of pool steps. -/
theorem workerStar_toStar {c c2 : Conf} (h : WorkerStar c c2) : StepStar c c2 :=
  Relation.ReflTransGen.mono (fun _ _ hs => workerStep_toStep hs) h

/-- Reachability is closed under spans of steps. -/
theorem reachable_of_star {n : Nat} {a b : Conf} (h : Reachable n a)
    (hs : StepStar a b) : Reachable n b := by
  induction hs with
  | refl => exact h
  | tail h1 h2 ih => exact Reachable.step ih h2

/-- The push history only grows. -/
theorem pushed_prefix_step {a b : Conf} (h : Step a b) :
    a.pushed <+: b.pushed := by
  cases h <;> first
    | exact List.prefix_append _ _
    | exact List.prefix_refl _

/-- The push history only grows, along any span. -/
theorem pushed_prefix_star {a b : Conf} (h : StepStar a b) :
    a.pushed <+: b.pushed := by
  induction h with
  | refl => exact List.prefix_refl _
  | tail h1 h2 ih => exact ih.trans (pushed_prefix_step h2)

/-- The pop history only grows. -/
theorem popped_prefix_step {a b : Conf} (h : Step a b) :
    a.popped <+: b.popped := by
  cases h <;> first
    | exact List.prefix_append _ _
    | exact List.prefix_refl _

/-- The pop history only grows, along any span. -/
theorem popped_prefix_star {a b : Conf} (h : StepStar a b) :
    a.popped <+: b.popped := by
  induction h with
  | refl => exact List.prefix_refl _
  | tail h1 h2 ih => exact ih.trans (popped_prefix_step h2)

/-- Worker steps from a configuration with an empty queue keep the queue
empty and leave the pop history and the counter alone (the only worker step
touching them is a dequeue, which needs a non-empty queue). -/
theorem workerStar_queue_empty {a b : Conf} (h : WorkerStar a b)
    (hq : a.queue = []) :
    b.queue = [] ∧ b.popped = a.popped ∧ b.queuedTaskCount = a.queuedTaskCount := by
  induction h with
  | refl => exact ⟨hq, rfl, rfl⟩
  | tail h1 h2 ih =>
    obtain ⟨ih1, ih2, ih3⟩ := ih
    cases h2 with
    | pop i t rest hi hq2 => rw [ih1] at hq2; simp at hq2
    | finish i t hi => exact ⟨ih1, ih2, ih3⟩
    | park i hi hq2 => exact ⟨ih1, ih2, ih3⟩
    | wake i hi => exact ⟨ih1, ih2, ih3⟩
    | exitLoop i hi hs hq2 => exact ⟨ih1, ih2, ih3⟩

/-- A worker list whose statuses all fail a predicate satisfied by every
`busy` status holds no task. -/
theorem heldTasks_nil_of_countP {p : WStatus → Bool} {ws : List WStatus}
    (hp : ∀ t, p (WStatus.busy t) = true) (h : ws.countP p = 0) :
    heldTasks ws = [] := by
  have h2 := List.countP_eq_zero.1 h
  simp only [heldTasks, List.filterMap_eq_nil_iff]
  intro s hs
  cases s with
  | busy t => exact absurd (hp t) (h2 _ hs)
  | active => rfl
  | parked => rfl
  | exitedLoop => rfl

/-- A task that has entered the queue once, has left it, and was never
dequeued, is never dequeued later either — as long as the push history keeps
its ids distinct, the only dequeue source (the queue) can never contain it
again. -/
theorem notPopped_future {t : Nat} {a b : Conf} (h : StepStar a b)
    (hp : t ∈ a.pushed) (hq : t ∉ a.queue) (hpop : t ∉ a.popped) :
    b.pushed.Nodup → t ∉ b.popped ∧ t ∉ b.queue := by
  induction h with
  | refl => intro _; exact ⟨hpop, hq⟩
  | tail h1 h2 ih =>
    intro hnd
    have hndm := (pushed_prefix_step h2).sublist.nodup hnd
    obtain ⟨ih1, ih2⟩ := ih hndm
    have hpm := (pushed_prefix_star h1).subset hp
    cases h2 with
    | push u hst hw =>
      by_cases hu : u = t
      · subst hu
        exact absurd (by simp) ((List.nodup_append.1 hnd).2.2 hpm)
      · refine ⟨ih1, fun hmem => ?_⟩
        rcases List.mem_append.1 hmem with hm | hm
        · exact ih2 hm
        · simp at hm
          exact hu hm.symm
    | pushSync u hst hw =>
      by_cases hu : u = t
      · subst hu
        exact absurd (by simp) ((List.nodup_append.1 hnd).2.2 hpm)
      · refine ⟨fun hmem => ?_, ih2⟩
        rcases List.mem_append.1 hmem with hm | hm
        · exact ih1 hm
        · simp at hm
          exact hu hm.symm
    | pop i u rest hi hq2 =>
      have hut : u ≠ t := fun he =>
        ih2 (by rw [hq2, he]; exact List.mem_cons_self t rest)
      refine ⟨fun hmem => ?_, fun hmem => ?_⟩
      · rcases List.mem_append.1 hmem with hm | hm
        · exact ih1 hm
        · simp at hm
          exact hut hm.symm
      · exact ih2 (by rw [hq2]; exact List.mem_cons_of_mem u hmem)
    | finish i u hi => exact ⟨ih1, ih2⟩
    | park i hi hq2 => exact ⟨ih1, ih2⟩
    | wake i hi => exact ⟨ih1, ih2⟩
    | exitLoop i hi hs hq2 => exact ⟨ih1, ih2⟩
    | clear => exact ⟨ih1, by simp⟩
    | setState s => exact ⟨ih1, ih2⟩

/-- Claim C4 counterexample: the claim's guarantee that no queued-but-unstarted
task is ever executed fails on a real interleaving of `Cancel()`.  Starting
from the reachable pool `cxQ2` (tasks 7 and 8 queued, none started, one
worker), the steps below are exactly the operations of one `Cancel()` call —
the `Paused` store, `EmptyQueue`'s critical section, the return of `Wait`
(its guard holds at `cxParked`) and the final `Running` store — interleaved
only with worker steps, with no submission anywhere (the push history never
changes).  Yet the worker dequeues and fully executes task 7, which was
queued and unstarted at the time of the call, because the worker loop checks
only for `Stopping`, never for `Paused`. -/
theorem claim_C4_counterexample :
    Reachable 1 cxQ2 ∧
    (7 ∈ cxQ2.queue ∧ 7 ∉ cxQ2.executed ∧ heldTasks cxQ2.workers = []) ∧
    Step cxQ2 cxPaused ∧
    Step cxPaused cxPopped ∧
    Step cxPopped cxCleared ∧
    Step cxCleared cxDone ∧
    Step cxDone cxParked ∧
    waitReturns cxParked ∧
    Step cxParked cxRet ∧
    cxRet.pushed = cxQ2.pushed ∧
    cxRet.state = PState.Running ∧ cxRet.queuedTaskCount = 0 ∧
    7 ∈ cxRet.executed := by
  refine ⟨?_, by decide, ?_, ?_, ?_, ?_, ?_, ?_, ?_, by decide, by decide,
    by decide, by decide⟩
  · exact Reachable.step
      (Reachable.step Reachable.init (Step.push (initConf 1) 7 rfl (by decide)))
      (Step.push _ 8 rfl (by decide))
  · exact Step.setState cxQ2 PState.Paused
  · exact Step.pop cxPaused 0 7 [8] rfl rfl
  · exact Step.clear cxPopped
  · exact Step.finish cxCleared 0 7 rfl
  · exact Step.park cxDone 0 rfl rfl
  · show ¬ 0 < cxParked.runningThreadCount
    decide
  · exact Step.setState cxParked PState.Running

/-- Claim C4 as amended: an execution of `Cancel()` with no concurrent
submitters is the `Paused` store, a span of worker steps (the worker loop
never checks `Paused`), `EmptyQueue`'s critical section, a span of worker
steps while `Wait` polls, the return of `Wait`, and the `Running` store.
When the call returns, the pool state is `Running`, the queued-task counter
is zero and the queue is empty, every task that was in flight at the time of
the call has completed, and — task ids being distinct — every task still in
the queue when `EmptyQueue` acquired the lock is discarded and never
executed, neither during the call nor at any later point of the run. -/
theorem claim_C4_cancel_amended {n : Nat} {c0 c2 c4 c5 : Conf}
    (h0 : Reachable n c0)
    (h1 : WorkerStar { c0 with state := PState.Paused } c2)
    (h2 : WorkerStar { c2 with
      queue := []
      queuedTaskCount := c2.queuedTaskCount - c2.queue.length } c4)
    (h3 : waitReturns c4)
    (h4 : StepStar { c4 with state := PState.Running } c5)
    (h5 : c5.pushed.Nodup) :
    ({ c4 with state := PState.Running } : Conf).state = PState.Running ∧
    c4.queuedTaskCount = 0 ∧ c4.queue = [] ∧
    (∀ t, WStatus.busy t ∈ c0.workers → t ∈ c4.executed) ∧
    (∀ t, t ∈ c2.queue → t ∉ c5.executed) := by
  have r1 : Reachable n ({ c0 with state := PState.Paused } : Conf) :=
    Reachable.step h0 (Step.setState c0 PState.Paused)
  have r2 : Reachable n c2 := reachable_of_star r1 (workerStar_toStar h1)
  have rc : Reachable n ({ c2 with
      queue := []
      queuedTaskCount := c2.queuedTaskCount - c2.queue.length } : Conf) :=
    Reachable.step r2 (Step.clear c2)
  have r4 : Reachable n c4 := reachable_of_star rc (workerStar_toStar h2)
  have r5 : Reachable n c5 :=
    reachable_of_star (Reachable.step r4 (Step.setState c4 PState.Running)) h4
  have hinv2 := inv_of_reachable r2
  have hinv4 := inv_of_reachable r4
  have hinv5 := inv_of_reachable r5
  obtain ⟨hq4, hpop4, hcnt4⟩ := workerStar_queue_empty h2 rfl
  have hc4cnt : c4.queuedTaskCount = 0 := by
    rw [hcnt4]
    show c2.queuedTaskCount - (c2.queue.length : Int) = 0
    rw [hinv2.counter]
    simp
  have hcp4 : c4.workers.countP notParked = 0 := by
    have h3b : ¬ 0 < c4.runningThreadCount := h3
    rw [hinv4.running] at h3b
    omega
  have hheld4 : heldTasks c4.workers = [] :=
    heldTasks_nil_of_countP (fun t => rfl) hcp4
  refine ⟨rfl, hc4cnt, hq4, ?_, ?_⟩
  · intro t hbusy
    have hheld0 : t ∈ heldTasks c0.workers :=
      List.mem_filterMap.2 ⟨_, hbusy, rfl⟩
    have hpc0 : 0 < c0.popped.count t := by
      have ho := (inv_of_reachable h0).once t
      have := List.count_pos_iff.2 hheld0
      omega
    have hp0 : t ∈ c0.popped := List.count_pos_iff.1 hpc0
    have hp2 : t ∈ c2.popped :=
      (popped_prefix_star (workerStar_toStar h1)).subset hp0
    have hp4 : t ∈ c4.popped := by rw [hpop4]; exact hp2
    have ho4 := hinv4.once t
    rw [hheld4] at ho4
    simp at ho4
    have : 0 < c4.executed.count t := by
      have := List.count_pos_iff.2 hp4
      omega
    exact List.count_pos_iff.1 this
  · intro t ht
    have hnd2 : c2.pushed.Nodup := by
      have hpreA := pushed_prefix_star (workerStar_toStar h2)
      have hpreB := pushed_prefix_star h4
      exact (hpreA.trans hpreB).sublist.nodup h5
    have hndpq := hinv2.order.nodup hnd2
    have htp2 : t ∉ c2.popped :=
      fun hmem => (List.nodup_append.1 hndpq).2.2 hmem ht
    have htp4 : t ∉ c4.popped := by rw [hpop4]; exact htp2
    have htq4 : t ∉ c4.queue := by rw [hq4]; simp
    have hpsh : t ∈ c4.pushed :=
      (pushed_prefix_star (workerStar_toStar h2)).subset
        (hinv2.order.subset (List.mem_append.2 (Or.inr ht)))
    have hfut := notPopped_future h4 hpsh htq4 htp4 h5
    have ho5 := hinv5.once t
    have hpc : c5.popped.count t = 0 := List.count_eq_zero.2 hfut.1
    have : c5.executed.count t = 0 := by omega
    exact List.count_eq_zero.1 this

/-- Witness for the amended claim C4: a `Cancel()` on a one-worker pool with
task 7 queued, where the worker does not touch the queue before the clear
and parks afterwards. -/
theorem claim_C4_witness :
    Reachable 1 confW0 ∧ waitReturns confW3 ∧ confW4.pushed.Nodup ∧
    (confW4.state = PState.Running ∧
     confW3.queuedTaskCount = 0 ∧ confW3.queue = [] ∧
     (∀ t, WStatus.busy t ∈ confW0.workers → t ∈ confW3.executed) ∧
     (∀ t, t ∈ confW1.queue → t ∉ confW4.executed)) := by
  have h0 : Reachable 1 confW0 :=
    Reachable.step Reachable.init (Step.push (initConf 1) 7 rfl (by decide))
  refine ⟨h0, ?_, by decide, ?_⟩
  · show ¬ 0 < confW3.runningThreadCount
    decide
  · exact claim_C4_cancel_amended h0
      Relation.ReflTransGen.refl
      (Relation.ReflTransGen.single (WorkerStep.park confW2 0 rfl rfl))
      (show ¬ 0 < confW3.runningThreadCount by decide)
      Relation.ReflTransGen.refl
      (by decide)

/-- Fresh part_000 workers are not inside a task body. -/
theorem countP_isBusy_replicate_active (n : Nat) :
    (List.replicate n WStatus.active).countP isBusy = 0 := by
  induction n with
  | zero => rfl
  | succ k ih => simp [List.replicate_succ, List.countP_cons, ih, isBusy]

/-- The invariant holds in the initial part_000 configuration. -/
theorem inv0_init (n : Nat) : Inv0 (initConf0 n) := by
  refine ⟨rfl, ?_, ?_, ?_, ?_⟩ <;>
    simp [initConf0, countP_isBusy_replicate_active, heldTasks_replicate_active]

/-- Every step of the part_000 pool preserves the invariant. -/
theorem inv0_step {c c2 : Conf0} (hv : Inv0 c) (hs : Step0 c c2) : Inv0 c2 := by
  obtain ⟨hcnt, hrun, hwq, hord, honce⟩ := hv
  cases hs with
  | push t hst hw =>
    refine ⟨?_, hrun, ?_, ?_, honce⟩
    · simp [hcnt]
    · intro h; exact absurd h hw
    · rw [← List.append_assoc]
      exact hord.append (List.Sublist.refl [t])
  | pushSync t hst hw =>
    have hq : c.queue = [] := hwq hw
    refine ⟨hcnt, hrun, fun _ => hq, ?_, ?_⟩
    · have hord2 : List.Sublist c.popped c.pushed := by
        simpa [hq] using hord
      simp only [hq, List.append_nil]
      exact hord2.append (List.Sublist.refl [t])
    · intro u
      have ho := honce u
      by_cases he : u = t
      · subst he
        simp [List.count_append, List.count_singleton]
        omega
      · simp [List.count_append, List.count_singleton, Ne.symm he]
        omega
  | pop i t rest hi hq =>
    refine ⟨?_, ?_, ?_, ?_, ?_⟩
    · rw [hq] at hcnt
      simp [List.length_cons] at hcnt
      show c.queuedTaskCount - 1 = (rest.length : Int)
      omega
    · have hcp := countP_set_add isBusy c.workers i WStatus.active
        (WStatus.busy t) hi
      simp [isBusy] at hcp
      show c.runningTaskCount + 1 =
        (List.countP isBusy (c.workers.set i (WStatus.busy t)) : Int)
      rw [hrun]
      omega
    · intro h
      exact absurd h (set_ne_nil_of_get c.workers i WStatus.active
        (WStatus.busy t) hi)
    · have : c.popped ++ [t] ++ rest = c.popped ++ (t :: rest) := by
        simp
      rw [this, ← hq]
      exact hord
    · intro u
      have hh := heldTasks_set_count c.workers i WStatus.active
        (WStatus.busy t) u hi
      have ho := honce u
      by_cases he : u = t
      · subst he
        simp [taskCnt, List.count_append, List.count_singleton] at hh ⊢
        omega
      · simp [taskCnt, Ne.symm he, List.count_append, List.count_singleton] at hh ⊢
        omega
  | finish i t hi =>
    refine ⟨hcnt, ?_, ?_, hord, ?_⟩
    · have hcp := countP_set_add isBusy c.workers i (WStatus.busy t)
        WStatus.active hi
      simp [isBusy] at hcp
      show c.runningTaskCount - 1 =
        (List.countP isBusy (c.workers.set i WStatus.active) : Int)
      rw [hrun]
      omega
    · intro h
      exact absurd h (set_ne_nil_of_get c.workers i (WStatus.busy t)
        WStatus.active hi)
    · intro u
      have hh := heldTasks_set_count c.workers i (WStatus.busy t)
        WStatus.active u hi
      have ho := honce u
      by_cases he : u = t
      · subst he
        simp [taskCnt, List.count_append, List.count_singleton] at hh ⊢
        omega
      · simp [taskCnt, Ne.symm he, List.count_append, List.count_singleton] at hh ⊢
        omega
  | park i hi hq =>
    refine ⟨hcnt, ?_, fun _ => hq, hord, ?_⟩
    · have hcp := countP_set_add isBusy c.workers i WStatus.active
        WStatus.parked hi
      simp [isBusy] at hcp
      rw [hrun, hcp]
    · intro u
      have hh := heldTasks_set_count c.workers i WStatus.active
        WStatus.parked u hi
      have ho := honce u
      simp [taskCnt] at hh
      rw [hh]
      exact ho
  | wake i hi =>
    refine ⟨hcnt, ?_, ?_, hord, ?_⟩
    · have hcp := countP_set_add isBusy c.workers i WStatus.parked
        WStatus.active hi
      simp [isBusy] at hcp
      rw [hrun, hcp]
    · intro h
      exact absurd h (set_ne_nil_of_get c.workers i WStatus.parked
        WStatus.active hi)
    · intro u
      have hh := heldTasks_set_count c.workers i WStatus.parked
        WStatus.active u hi
      have ho := honce u
      simp [taskCnt] at hh
      rw [hh]
      exact ho
  | exitLoop i hi hs hq =>
    refine ⟨hcnt, ?_, ?_, hord, ?_⟩
    · have hcp := countP_set_add isBusy c.workers i WStatus.active
        WStatus.exitedLoop hi
      simp [isBusy] at hcp
      rw [hrun, hcp]
    · intro h
      exact absurd h (set_ne_nil_of_get c.workers i WStatus.active
        WStatus.exitedLoop hi)
    · intro u
      have hh := heldTasks_set_count c.workers i WStatus.active
        WStatus.exitedLoop u hi
      have ho := honce u
      simp [taskCnt] at hh
      rw [hh]
      exact ho
  | clear =>
    refine ⟨?_, hrun, fun _ => rfl, ?_, honce⟩
    · simp [hcnt]
    · simp only [List.append_nil]
      exact (List.sublist_append_left c.popped c.queue).trans hord
  | setStop b =>
    exact ⟨hcnt, hrun, hwq, hord, honce⟩

/-- The invariant survives any span of part_000 steps. -/
theorem inv0_star {a b : Conf0} (hs : StepStar0 a b) (h : Inv0 a) : Inv0 b := by
  induction hs with
  | refl => exact h
  | tail h1 h2 ih => exact inv0_step ih h2

/-- The invariant holds in every reachable part_000 configuration. -/
theorem inv0_of_reachable {n : Nat} {c : Conf0} (h : Reachable0 n c) : Inv0 c := by
  induction h with
  | init => exact inv0_init n
  | step h1 h2 ih => exact inv0_step ih h2

/-- The invariant survives `JoinThreads` plus the spawn of `nw` new workers
(modelled as one replacement of the worker list), provided the queue is
empty, no task is held, and `m_RunningTaskCount` is zero — which is the
state after part_000's `Wait` returned. -/
theorem inv0_jump {c : Conf0} (h : Inv0 c) (hq : c.queue = [])
    (hb : heldTasks c.workers = []) (hr : c.runningTaskCount = 0) (nw : Nat) :
    Inv0 { c with workers := List.replicate nw WStatus.active, stop := false } := by
  obtain ⟨hcnt, hrun, hwq, hord, honce⟩ := h
  refine ⟨hcnt, ?_, ?_, hord, ?_⟩
  · show c.runningTaskCount =
      ((List.replicate nw WStatus.active).countP isBusy : Int)
    rw [hr, countP_isBusy_replicate_active]
    simp
  · intro _
    exact hq
  · intro t
    have ho := honce t
    rw [hb] at ho
    show c.executed.count t +
      (heldTasks (List.replicate nw WStatus.active)).count t = c.popped.count t
    rw [heldTasks_replicate_active]
    simpa using ho

/-- Every part_000 worker step is a pool step. -/
theorem workerStep0_toStep {c c2 : Conf0} (h : WorkerStep0 c c2) : Step0 c c2 := by
  cases h with
  | pop i t rest hi hq => exact Step0.pop c i t rest hi hq
  | finish i t hi => exact Step0.finish c i t hi
  | park i hi hq => exact Step0.park c i hi hq
  | wake i hi => exact Step0.wake c i hi
  | exitLoop i hi hs hq => exact Step0.exitLoop c i hi hs hq

/-- A span of part_000 worker steps is a span of pool steps. -/
theorem workerStar0_toStar {c c2 : Conf0} (h : WorkerStar0 c c2) :
    StepStar0 c c2 :=
  Relation.ReflTransGen.mono (fun _ _ hs => workerStep0_toStep hs) h

/-- Part_000 reachability is closed under spans of steps. -/
theorem reachable0_of_star {n : Nat} {a b : Conf0} (h : Reachable0 n a)
    (hs : StepStar0 a b) : Reachable0 n b := by
  induction hs with
  | refl => exact h
  | tail h1 h2 ih => exact Reachable0.step ih h2

/-- The part_000 push history only grows. -/
theorem pushed0_prefix_step {a b : Conf0} (h : Step0 a b) :
    a.pushed <+: b.pushed := by
  cases h <;> first
    | exact List.prefix_append _ _
    | exact List.prefix_refl _

/-- The part_000 push history only grows, along any span. -/
theorem pushed0_prefix_star {a b : Conf0} (h : StepStar0 a b) :
    a.pushed <+: b.pushed := by
  induction h with
  | refl => exact List.prefix_refl _
  | tail h1 h2 ih => exact ih.trans (pushed0_prefix_step h2)

/-- The part_000 pop history only grows. -/
theorem popped0_prefix_step {a b : Conf0} (h : Step0 a b) :
    a.popped <+: b.popped := by
  cases h <;> first
    | exact List.prefix_append _ _
    | exact List.prefix_refl _

/-- The part_000 pop history only grows, along any span. -/
theorem popped0_prefix_star {a b : Conf0} (h : StepStar0 a b) :
    a.popped <+: b.popped := by
  induction h with
  | refl => exact List.prefix_refl _
  | tail h1 h2 ih => exact ih.trans (popped0_prefix_step h2)

/-- Part_000 worker steps from a configuration with an empty queue keep the
queue empty and leave the pop history and the counter alone. -/
theorem workerStar0_queue_empty {a b : Conf0} (h : WorkerStar0 a b)
    (hq : a.queue = []) :
    b.queue = [] ∧ b.popped = a.popped ∧ b.queuedTaskCount = a.queuedTaskCount := by
  induction h with
  | refl => exact ⟨hq, rfl, rfl⟩
  | tail h1 h2 ih =>
    obtain ⟨ih1, ih2, ih3⟩ := ih
    cases h2 with
    | pop i t rest hi hq2 => rw [ih1] at hq2; simp at hq2
    | finish i t hi => exact ⟨ih1, ih2, ih3⟩
    | park i hi hq2 => exact ⟨ih1, ih2, ih3⟩
    | wake i hi => exact ⟨ih1, ih2, ih3⟩
    | exitLoop i hi hs hq2 => exact ⟨ih1, ih2, ih3⟩

/-- Along part_000 worker steps, a task in the queue or already dequeued
stays in the queue or dequeued (a dequeue moves it from one to the other). -/
theorem workerStar0_mem {t : Nat} {a b : Conf0} (h : WorkerStar0 a b)
    (hm : t ∈ a.queue ∨ t ∈ a.popped) : t ∈ b.queue ∨ t ∈ b.popped := by
  induction h with
  | refl => exact hm
  | tail h1 h2 ih =>
    cases h2 with
    | pop i u rest hi hq =>
      rcases ih with hq2 | hp2
      · rw [hq] at hq2
        rcases List.mem_cons.1 hq2 with he | hm2
        · right
          subst he
          exact List.mem_append.2 (Or.inr (by simp))
        · left
          exact hm2
      · right
        exact List.mem_append.2 (Or.inl hp2)
    | finish i u hi => exact ih
    | park i hi hq => exact ih
    | wake i hi => exact ih
    | exitLoop i hi hs hq => exact ih

/-- Part_000 version of `notPopped_future`: a task that entered the queue
once, has left it, and was never dequeued, is never dequeued later, as long
as the push history keeps its ids distinct. -/
theorem notPopped_future0 {t : Nat} {a b : Conf0} (h : StepStar0 a b)
    (hp : t ∈ a.pushed) (hq : t ∉ a.queue) (hpop : t ∉ a.popped) :
    b.pushed.Nodup → t ∉ b.popped ∧ t ∉ b.queue := by
  induction h with
  | refl => intro _; exact ⟨hpop, hq⟩
  | tail h1 h2 ih =>
    intro hnd
    have hndm := (pushed0_prefix_step h2).sublist.nodup hnd
    obtain ⟨ih1, ih2⟩ := ih hndm
    have hpm := (pushed0_prefix_star h1).subset hp
    cases h2 with
    | push u hst hw =>
      by_cases hu : u = t
      · subst hu
        exact absurd (by simp) ((List.nodup_append.1 hnd).2.2 hpm)
      · refine ⟨ih1, fun hmem => ?_⟩
        rcases List.mem_append.1 hmem with hm | hm
        · exact ih2 hm
        · simp at hm
          exact hu hm.symm
    | pushSync u hst hw =>
      by_cases hu : u = t
      · subst hu
        exact absurd (by simp) ((List.nodup_append.1 hnd).2.2 hpm)
      · refine ⟨fun hmem => ?_, ih2⟩
        rcases List.mem_append.1 hmem with hm | hm
        · exact ih1 hm
        · simp at hm
          exact hu hm.symm
    | pop i u rest hi hq2 =>
      have hut : u ≠ t := fun he =>
        ih2 (by rw [hq2, he]; exact List.mem_cons_self t rest)
      refine ⟨fun hmem => ?_, fun hmem => ?_⟩
      · rcases List.mem_append.1 hmem with hm | hm
        · exact ih1 hm
        · simp at hm
          exact hut hm.symm
      · exact ih2 (by rw [hq2]; exact List.mem_cons_of_mem u hmem)
    | finish i u hi => exact ⟨ih1, ih2⟩
    | park i hi hq2 => exact ⟨ih1, ih2⟩
    | wake i hi => exact ⟨ih1, ih2⟩
    | exitLoop i hi hs hq2 => exact ⟨ih1, ih2⟩
    | clear => exact ⟨ih1, by simp⟩
    | setStop b2 => exact ⟨ih1, ih2⟩

/-- Claim C1 counterexample: the `waitForDrain = false` promise that queued
tasks are "discarded without being executed" fails on a real interleaving of
part_000's `SetThreadCount`.  Starting from the reachable pool `dxQ` (tasks
7 and 8 queued, none started, one worker), the steps below are exactly the
operations of one `SetThreadCount(2, false)` call — the `m_Stop = true`
store, the (lockless) `EmptyQueue`, the return of `Wait` (its guard holds at
`dxFin`) and the worker exiting before the join — interleaved only with
worker steps and with no submission anywhere, followed by the join of the
old worker and the spawn of the 2 new ones.  Yet the worker dequeues and
fully executes task 7, which was queued and unstarted at the time of the
call, because its loop keeps consuming while `m_QueuedTaskCount > 0`. -/
theorem claim_C1_counterexample :
    Reachable0 1 dxQ ∧
    (7 ∈ dxQ.queue ∧ 7 ∉ dxQ.executed ∧ heldTasks dxQ.workers = []) ∧
    Step0 dxQ dxStop ∧
    Step0 dxStop dxPop ∧
    Step0 dxPop dxClear ∧
    Step0 dxClear dxFin ∧
    waitReturns0 dxFin ∧
    Step0 dxFin dxExit ∧
    dxSpawn = { dxExit with
      workers := List.replicate 2 WStatus.active
      stop := false } ∧
    dxSpawn.pushed = dxQ.pushed ∧
    dxSpawn.workers.length = 2 ∧
    7 ∈ dxSpawn.executed := by
  refine ⟨?_, by decide, ?_, ?_, ?_, ?_, ?_, ?_, by decide, by decide,
    by decide, by decide⟩
  · exact Reachable0.step
      (Reachable0.step Reachable0.init
        (Step0.push (initConf0 1) 7 rfl (by decide)))
      (Step0.push _ 8 rfl (by decide))
  · exact Step0.setStop dxQ true
  · exact Step0.pop dxStop 0 7 [8] rfl rfl
  · exact Step0.clear dxPop
  · exact Step0.finish dxClear 0 7 rfl
  · show ¬ 0 < dxFin.runningTaskCount ∧ ¬ 0 < dxFin.queuedTaskCount
    exact ⟨by decide, by decide⟩
  · exact Step0.exitLoop dxFin 0 rfl rfl (by decide)

/-- Claim C1 as amended, on part_000's `SetThreadCount(n, waitForDrain)`
with `n` different from the current worker count and a single caller.  The
call is the `m_Stop = true` store, then (`waitForDrain = false` only) the
`EmptyQueue` discard, then `Wait()` polling while the workers run, then the
join of the old workers and the spawn of the `nw` new ones.  First half
(`waitForDrain = true`): when `Wait` returns, every task queued at the time
of the call has been executed.  Second half (`waitForDrain = false`): every
task still queued when `EmptyQueue` performs the discard is dropped and —
task ids being distinct — never executed, neither then nor at any later
point of the run, even after the new workers are spawned; every task already
being executed at the time of the call completes before `Wait` returns; and
the pool continues with `nw` fresh workers. -/
theorem claim_C1_resize_amended {n0 : Nat} {c0 : Conf0}
    (h0 : Reachable0 n0 c0) :
    (∀ {c4 : Conf0}, WorkerStar0 { c0 with stop := true } c4 →
      waitReturns0 c4 → ∀ t ∈ c0.queue, t ∈ c4.executed) ∧
    (∀ (nw : Nat) {c2 c4 cf : Conf0},
      WorkerStar0 { c0 with stop := true } c2 →
      WorkerStar0 { c2 with
        queue := []
        queuedTaskCount := c2.queuedTaskCount - c2.queue.length } c4 →
      waitReturns0 c4 →
      StepStar0 { c4 with
        workers := List.replicate nw WStatus.active
        stop := false } cf →
      cf.pushed.Nodup →
      (∀ t ∈ c2.queue, t ∉ cf.executed) ∧
      (∀ t, WStatus.busy t ∈ c0.workers → t ∈ c4.executed) ∧
      ({ c4 with
        workers := List.replicate nw WStatus.active
        stop := false } : Conf0).workers.length = nw) := by
  have r1 : Reachable0 n0 ({ c0 with stop := true } : Conf0) :=
    Reachable0.step h0 (Step0.setStop c0 true)
  constructor
  · intro c4 hw hret t ht
    have r4 : Reachable0 n0 c4 := reachable0_of_star r1 (workerStar0_toStar hw)
    have hinv4 := inv0_of_reachable r4
    have hq4 : c4.queue = [] := by
      have hc := hinv4.counter
      have h2 := hret.2
      have : c4.queue.length = 0 := by omega
      exact List.length_eq_zero.1 this
    have hm : t ∈ c4.queue ∨ t ∈ c4.popped := workerStar0_mem hw (Or.inl ht)
    have hp4 : t ∈ c4.popped := by
      rcases hm with hm | hm
      · rw [hq4] at hm
        simp at hm
      · exact hm
    have hcp : c4.workers.countP isBusy = 0 := by
      have hr := hinv4.running
      have h1 := hret.1
      omega
    have hheld : heldTasks c4.workers = [] :=
      heldTasks_nil_of_countP (fun u => rfl) hcp
    have ho := hinv4.once t
    rw [hheld] at ho
    simp at ho
    have : 0 < c4.executed.count t := by
      have := List.count_pos_iff.2 hp4
      omega
    exact List.count_pos_iff.1 this
  · intro nw c2 c4 cf hw1 hw2 hret hsf hnd
    have r2 : Reachable0 n0 c2 := reachable0_of_star r1 (workerStar0_toStar hw1)
    have hinv2 := inv0_of_reachable r2
    have rc : Reachable0 n0 ({ c2 with
        queue := []
        queuedTaskCount := c2.queuedTaskCount - c2.queue.length } : Conf0) :=
      Reachable0.step r2 (Step0.clear c2)
    have r4 : Reachable0 n0 c4 := reachable0_of_star rc (workerStar0_toStar hw2)
    have hinv4 := inv0_of_reachable r4
    obtain ⟨hq4, hpop4, hcnt4⟩ := workerStar0_queue_empty hw2 rfl
    have hcp : c4.workers.countP isBusy = 0 := by
      have hr := hinv4.running
      have h1 := hret.1
      omega
    have hheld : heldTasks c4.workers = [] :=
      heldTasks_nil_of_countP (fun u => rfl) hcp
    have hr0 : c4.runningTaskCount = 0 := by
      have hr := hinv4.running
      rw [hcp] at hr
      simpa using hr
    have hinvJ : Inv0 ({ c4 with
        workers := List.replicate nw WStatus.active
        stop := false } : Conf0) :=
      inv0_jump hinv4 hq4 hheld hr0 nw
    have hinvf : Inv0 cf := inv0_star hsf hinvJ
    refine ⟨?_, ?_, by simp⟩
    · intro t ht
      have hnd2 : c2.pushed.Nodup := by
        have hpreA := pushed0_prefix_star (workerStar0_toStar hw2)
        have hpreB := pushed0_prefix_star hsf
        exact (hpreA.trans hpreB).sublist.nodup hnd
      have hndpq := hinv2.order.nodup hnd2
      have htp2 : t ∉ c2.popped :=
        fun hmem => (List.nodup_append.1 hndpq).2.2 hmem ht
      have htp4 : t ∉ c4.popped := by rw [hpop4]; exact htp2
      have htq4 : t ∉ c4.queue := by rw [hq4]; simp
      have hpsh : t ∈ c4.pushed :=
        (pushed0_prefix_star (workerStar0_toStar hw2)).subset
          (hinv2.order.subset (List.mem_append.2 (Or.inr ht)))
      have hfut := notPopped_future0 hsf hpsh htq4 htp4 hnd
      have ho := hinvf.once t
      have hpc : cf.popped.count t = 0 := List.count_eq_zero.2 hfut.1
      have : cf.executed.count t = 0 := by omega
      exact List.count_eq_zero.1 this
    · intro t hbusy
      have hheld0 : t ∈ heldTasks c0.workers :=
        List.mem_filterMap.2 ⟨_, hbusy, rfl⟩
      have hpc0 : 0 < c0.popped.count t := by
        have ho := (inv0_of_reachable h0).once t
        have := List.count_pos_iff.2 hheld0
        omega
      have hp0 : t ∈ c0.popped := List.count_pos_iff.1 hpc0
      have hp2 : t ∈ c2.popped :=
        (popped0_prefix_star (workerStar0_toStar hw1)).subset hp0
      have hp4 : t ∈ c4.popped := by rw [hpop4]; exact hp2
      have ho4 := hinv4.once t
      rw [hheld] at ho4
      simp at ho4
      have : 0 < c4.executed.count t := by
        have := List.count_pos_iff.2 hp4
        omega
      exact List.count_pos_iff.1 this

/-- Witness for the amended claim C1 on a one-worker part_000 pool with task
7 queued: the `waitForDrain = true` run drains task 7, and the
`waitForDrain = false` run with an idle worker discards it (and spawns 2 new
workers). -/
theorem claim_C1_witness :
    Reachable0 1 confV0 ∧
    waitReturns0 confV3 ∧ waitReturns0 confV4 ∧ confV5.pushed.Nodup ∧
    (∀ t ∈ confV0.queue, t ∈ confV3.executed) ∧
    ((∀ t ∈ confV1.queue, t ∉ confV5.executed) ∧
     (∀ t, WStatus.busy t ∈ confV0.workers → t ∈ confV4.executed) ∧
     (({ confV4 with
        workers := List.replicate 2 WStatus.active
        stop := false } : Conf0).workers.length = 2)) := by
  have h0 : Reachable0 1 confV0 :=
    Reachable0.step Reachable0.init (Step0.push (initConf0 1) 7 rfl (by decide))
  have hdrain : WorkerStar0 confV1 confV3 :=
    Relation.ReflTransGen.tail
      (Relation.ReflTransGen.single (WorkerStep0.pop confV1 0 7 [] rfl rfl))
      (WorkerStep0.finish confV2 0 7 rfl)
  refine ⟨h0, ?_, ?_, by decide, ?_, ?_⟩
  · show ¬ 0 < confV3.runningTaskCount ∧ ¬ 0 < confV3.queuedTaskCount
    exact ⟨by decide, by decide⟩
  · show ¬ 0 < confV4.runningTaskCount ∧ ¬ 0 < confV4.queuedTaskCount
    exact ⟨by decide, by decide⟩
  · exact (claim_C1_resize_amended h0).1 hdrain ⟨by decide, by decide⟩
  · exact (claim_C1_resize_amended h0).2 2
      Relation.ReflTransGen.refl
      Relation.ReflTransGen.refl
      ⟨by decide, by decide⟩
      Relation.ReflTransGen.refl
      (by decide)

end CppUtils
